import Mathlib

/-!
Verification of the evalml engine base module (`evalml/automl/engine/engine_base.py`).

This file gives a shallow embedding of the module's two core pieces:

* `JobLogger` — the in-memory log buffer (`info`/`debug`/`warning`/`error`
  append `(level, message)` pairs; `write_to_logger` replays them to a target
  logger, downgrading buffered `error` entries to `warning` calls).
* `train_and_score_pipeline` together with its inner `_train_and_score`
  closure — the cross-validation loop: classification-target re-encoding,
  per-fold missing-class detection, per-fold exception containment
  (`PipelineScoreError` partial scoring vs. generic failures), evaluation-entry
  construction (an `OrderedDict`), the pandas mean of the fold scores, and the
  optional holdout pass.

Modelling conventions:
* Target labels are modelled as integers (`ℤ`); Python is dynamically typed and
  every claim in scope only needs labels that can be distinguished from their
  dense re-encoding (floats or strings behave identically).
* Objective scores are `ScoreVal`: either a rational value or NaN, since the
  code manipulates NaN explicitly (`np.nan`) and pandas' `mean` treats it
  specially.
* The external training/scoring machinery (`pipeline.fit`, `pipeline.score`,
  threshold tuning) is an oracle: each fold carries a `FoldOutcome` describing
  what the external calls did — success with a score dict and a resulting
  pipeline threshold, a `PipelineScoreError` carrying per-objective failures
  and successes, or a generic exception. This mirrors the code's `try/except`
  structure, which only distinguishes those three situations.
* Observable side effects (invocations of `_train_and_score` with its data
  slices, and invocations of the configured error callback with the fold
  number) are collected in an `EvalEvent` trace returned next to the scores.
* Exceptions that escape `train_and_score_pipeline` are an `Except.error`
  carrying an `EvalError`. This includes the missing-target-class `Exception`,
  the `KeyError` that Python would raise inside the `except` handler when a
  `PipelineScoreError` does not cover some requested objective, the
  `IndexError` pandas `iloc` raises for an out-of-range positional index, and
  the `NameError` on the loop variable `i` when the holdout pass runs after a
  splitter that yielded no folds (the source's `_train_and_score` reads the
  closure variable `i`, ignoring its own `fold_num` parameter).
* Wall-clock `training_time` and the `pipeline_cache` contents are not
  modelled; no claim in scope concerns them.
-/

set_option linter.unusedVariables false

/-! ## JobLogger -/

/-- Severity levels of the four `logging`-style methods `JobLogger` exposes. -/
inductive LogLevel where
  | info
  | debug
  | warning
  | error
deriving DecidableEq, Repr

/-- In-memory logger: `self.logs` is the ordered list of `(level, message)`
pairs, exactly as built by the source's `JobLogger.__init__`/append methods. -/
structure JobLogger where
  logs : List (LogLevel × String)
deriving DecidableEq, Repr

/-- Source `JobLogger.info`: append `("info", msg)`. -/
def JobLogger.info (l : JobLogger) (msg : String) : JobLogger :=
  ⟨l.logs ++ [(LogLevel.info, msg)]⟩

/-- Source `JobLogger.debug`: append `("debug", msg)`. -/
def JobLogger.debug (l : JobLogger) (msg : String) : JobLogger :=
  ⟨l.logs ++ [(LogLevel.debug, msg)]⟩

/-- Source `JobLogger.warning`: append `("warning", msg)`. -/
def JobLogger.warning (l : JobLogger) (msg : String) : JobLogger :=
  ⟨l.logs ++ [(LogLevel.warning, msg)]⟩

/-- Source `JobLogger.error`: append `("error", msg)`. -/
def JobLogger.error (l : JobLogger) (msg : String) : JobLogger :=
  ⟨l.logs ++ [(LogLevel.error, msg)]⟩

/-- The `logger_method` dispatch table of `write_to_logger`: which method of
the target logger each buffered level is replayed through. Buffered `error`
entries are mapped to the target's `warning` method. -/
def writeLevel : LogLevel → LogLevel
  | .info => .info
  | .debug => .debug
  | .warning => .warning
  | .error => .warning

/-- Source `JobLogger.write_to_logger`: replays every buffered entry in FIFO
order. The returned pair is (the logger after the call — the source never
clears `self.logs` —, the list of calls made on the target logger, as
`(level of the target method invoked, message)` pairs). -/
def JobLogger.write_to_logger (l : JobLogger) : JobLogger × List (LogLevel × String) :=
  (l, l.logs.map (fun p => (writeLevel p.1, p.2)))

/-- One call to a `JobLogger` logging method, used to quantify over arbitrary
call sequences. -/
inductive LogCall where
  | info (msg : String)
  | debug (msg : String)
  | warning (msg : String)
  | error (msg : String)
deriving DecidableEq, Repr

/-- Dispatch one `LogCall` to the corresponding `JobLogger` method. -/
def JobLogger.applyCall (l : JobLogger) : LogCall → JobLogger
  | .info m => l.info m
  | .debug m => l.debug m
  | .warning m => l.warning m
  | .error m => l.error m

/-- Apply a sequence of logging calls in order. -/
def JobLogger.applyCalls (l : JobLogger) (cs : List LogCall) : JobLogger :=
  cs.foldl JobLogger.applyCall l

/-- The `(level, message)` pair a call appends to the buffer. -/
def callEntry : LogCall → LogLevel × String
  | .info m => (LogLevel.info, m)
  | .debug m => (LogLevel.debug, m)
  | .warning m => (LogLevel.warning, m)
  | .error m => (LogLevel.error, m)

/-- Replaying twice in a row: concatenation of what the first and the second
`write_to_logger` call deliver to the target. -/
def twiceDelivered (l : JobLogger) : List (LogLevel × String) :=
  (l.write_to_logger).2 ++ (((l.write_to_logger).1).write_to_logger).2

/-! ## Scores and problem types -/

/-- A float score as the engine sees it: a numeric value or `np.nan`. -/
inductive ScoreVal where
  | nan
  | val (q : ℚ)
deriving DecidableEq, Repr

/-- Numeric content of a score, `none` for NaN. -/
def ScoreVal.toVal : ScoreVal → Option ℚ
  | .nan => none
  | .val q => some q

/-- Behaviour of `pd.Series(xs).mean()`: pandas averages with `skipna=True`
by default, so NaN entries are dropped; the result is NaN only when no
non-NaN entry remains (in particular for an empty series). -/
def pandasMean (xs : List ScoreVal) : ScoreVal :=
  let vs := xs.filterMap ScoreVal.toVal
  if vs.isEmpty then .nan else .val (vs.sum / (vs.length : ℚ))

/-- An objective, reduced to its stable `name` (the only attribute the engine
code reads when building score dictionaries). -/
structure Objective where
  name : String
deriving DecidableEq, Repr

/-- The members of `evalml.problem_types.ProblemTypes`. -/
inductive ProblemType where
  | binary
  | multiclass
  | regression
  | time_series_regression
  | time_series_binary
  | time_series_multiclass
deriving DecidableEq, Repr

/-- Source `is_binary`: binary and time-series binary. -/
def is_binary : ProblemType → Bool
  | .binary => true
  | .time_series_binary => true
  | _ => false

/-- Source `is_classification`: the four classification problem types. -/
def is_classification : ProblemType → Bool
  | .binary => true
  | .multiclass => true
  | .time_series_binary => true
  | .time_series_multiclass => true
  | _ => false

/-- The membership test `handle_problem_types(problem_type) in
[ProblemTypes.BINARY, ProblemTypes.MULTICLASS]` guarding the missing-class
check (note: unlike `is_classification`, this excludes the time-series
classification types). -/
def isBinaryOrMulticlass : ProblemType → Bool
  | .binary => true
  | .multiclass => true
  | _ => false

/-- The parts of the `automl_config` object that `train_and_score_pipeline`
reads: the primary objective, the additional objectives, the problem type and
whether an `error_callback` is configured (`error_callback is not None`). -/
structure AutomlConfig where
  objective : Objective
  additional_objectives : List Objective
  problem_type : ProblemType
  error_callback : Bool
deriving DecidableEq, Repr

/-- The list `[automl_config.objective] + automl_config.additional_objectives`
used both for scoring and for rebuilding partial scores. -/
def objectivesOf (cfg : AutomlConfig) : List Objective :=
  cfg.objective :: cfg.additional_objectives

/-! ## Target encoding and index slicing -/

/-- Count of occurrences of a value in the target. -/
def countOcc (y : List ℤ) (v : ℤ) : Nat :=
  (y.filter (fun x => x == v)).length

/-- Distinct values in first-occurrence order (the iteration order that the
underlying pandas hash table produces before sorting by count). -/
def uniqueFirstAux (seen : List ℤ) : List ℤ → List ℤ
  | [] => []
  | x :: xs => if x ∈ seen then uniqueFirstAux seen xs else x :: uniqueFirstAux (x :: seen) xs

/-- Distinct values of a list, keeping first occurrences in order. -/
def uniqueFirst (l : List ℤ) : List ℤ :=
  uniqueFirstAux [] l

/-- Stable insert for a descending-count sort: `x` goes after every element of
at least its count, so elements of equal count keep their relative order. -/
def insertCntDesc (cnt : ℤ → Nat) : List ℤ → ℤ → List ℤ
  | [], x => [x]
  | y :: ys, x => if cnt y < cnt x then x :: y :: ys else y :: insertCntDesc cnt ys x

/-- Behaviour of `y.value_counts().index`: the distinct values of `y`, sorted
by descending frequency, ties in first-occurrence order. -/
def valueCountsIndex (y : List ℤ) : List ℤ :=
  (uniqueFirst y).foldl (insertCntDesc (countOcc y)) []

/-- Position of a value in a list (the encoded value `enumerate` assigns). -/
def indexOfZ (v : ℤ) : List ℤ → Nat
  | [] => 0
  | x :: xs => if x = v then 0 else indexOfZ v xs + 1

/-- Source `_encode_classification_target`: build `y_mapping` from
`enumerate(y.value_counts().index)` and map the target through it, so each
distinct label, by descending frequency, becomes `0..k-1`. -/
def encodeClassificationTarget (y : List ℤ) : List ℤ :=
  y.map (fun v => ((indexOfZ v (valueCountsIndex y) : Nat) : ℤ))

/-- Positional row selection `series.ww.iloc[indices]`. Only applied with
in-range indices (`processFold` raises the model's `IndexError` otherwise,
mirroring pandas). -/
def ilocSelect (y : List ℤ) (idxs : List Nat) : List ℤ :=
  idxs.filterMap (fun i => y.get? i)

/-- Whether every positional index is in range for a series of length `n`. -/
def allInRange (idxs : List Nat) (n : Nat) : Bool :=
  idxs.all (fun i => decide (i < n))

/-- Ascending insertion, used to sort the distinct missing values. -/
def insertAsc (x : ℤ) : List ℤ → List ℤ
  | [] => [x]
  | y :: ys => if x ≤ y then x :: y :: ys else y :: insertAsc x ys

/-- Behaviour of `np.setdiff1d(full, part)` as used at the missing-class
check: the sorted distinct values of `full` that do not occur in `part`. -/
def setdiff1d (a b : List ℤ) : List ℤ :=
  (uniqueFirst (a.filter (fun x => !(b.contains x)))).foldr insertAsc []

/-! ## Fold outcomes and the `_train_and_score` closure -/

/-- The payload of a `PipelineScoreError`: the names of the objectives whose
scoring raised (`e.exceptions` keys) and the scores of the objectives that
scored successfully (`e.scored_successfully`). -/
structure PipelineScoreExn where
  exceptions : List String
  scored_successfully : List (String × ScoreVal)
deriving DecidableEq, Repr

/-- Oracle for what the external training/scoring calls of one
`_train_and_score` invocation did. `threshold` is the `threshold` attribute of
the pipeline the call ends up returning (`fitted_pipeline`, which on failure
before `fit` completes is the original pipeline). -/
inductive FoldOutcome where
  | success (scores : List (String × ScoreVal)) (threshold : Option ℚ)
  | scoreError (e : PipelineScoreExn) (threshold : Option ℚ)
  | otherError (threshold : Option ℚ)
deriving DecidableEq, Repr

/-- The returned pipeline's `threshold` attribute for an outcome. -/
def outcomeThreshold : FoldOutcome → Option ℚ
  | .success _ th => th
  | .scoreError _ th => th
  | .otherError th => th

/-- One emission of the data splitter — a `(train-indices,
validation-indices)` pair — together with the oracle outcome of training and
scoring on that fold. -/
structure FoldSpec where
  train : List Nat
  valid : List Nat
  outcome : FoldOutcome
deriving DecidableEq, Repr

/-- What one `_train_and_score` call produces: the primary score, the `scores`
dict (an ordered association list), the returned pipeline's threshold, and the
`fold_num` values passed to the error callback (one entry per invocation). -/
structure TSOut where
  score : ScoreVal
  scores : List (String × ScoreVal)
  threshold : Option ℚ
  callback_folds : List Nat
deriving DecidableEq, Repr

/-- Exceptions that escape `train_and_score_pipeline`. -/
inductive EvalError where
  | missingTargetValues (diff_train diff_valid : List ℤ)
  | keyError (objectiveName : String)
  | indexError
  | nameErrorUnboundLoopVar
deriving DecidableEq, Repr

/-- Observable side effects of the evaluation: one `trainScorePass` per
`_train_and_score` invocation, carrying the target slices it receives (the
feature slices are taken with the same positional indices), and one
`errorCallback` per error-callback invocation, carrying the `fold_num`
argument the callback receives. -/
inductive EvalEvent where
  | trainScorePass (y_train y_score : List ℤ)
  | errorCallback (fold_num : Nat)
deriving DecidableEq, Repr

/-- First-match association-list lookup (Python dict access order for our
ordered dict model). -/
def alookup {β : Type} : List (String × β) → String → Option β
  | [], _ => none
  | p :: ps, k => if p.1 = k then some p.2 else alookup ps k

/-- Lookup in `{**nan_scores, **e.scored_successfully}` where `nan_scores`
maps every name in `e.exceptions` to NaN: a successfully scored objective
wins over the NaN entry of the same name. -/
def mergedLookup (e : PipelineScoreExn) (n : String) : Option ScoreVal :=
  match alookup e.scored_successfully n with
  | some v => some v
  | none => if e.exceptions.contains n then some ScoreVal.nan else none

/-- The `OrderedDict({o.name: scores[o.name] for o in [objective] +
additional_objectives})` rebuild in the `PipelineScoreError` handler. Python
raises `KeyError` when a requested objective is in neither part of the merged
dict; that name is returned as the error. -/
def buildPartialScores (e : PipelineScoreExn) : List Objective → Except String (List (String × ScoreVal))
  | [] => .ok []
  | o :: os =>
    match mergedLookup e o.name with
    | none => .error o.name
    | some v => (buildPartialScores e os).map (fun l => (o.name, v) :: l)

/-- The NaN fill of the generic-exception handler: only the additional
objectives are zipped with NaN (`scores = OrderedDict(zip([n.name for n in
additional_objectives], [np.nan] * ...))`). -/
def nanFill (cfg : AutomlConfig) : List (String × ScoreVal) :=
  cfg.additional_objectives.map (fun o => (o.name, ScoreVal.nan))

/-- Source `_train_and_score`. `fold_num` is the closure's parameter, which
the source body never reads; `i` is the enclosing loop variable the body
actually uses (both for the log prefix and for the callback's `fold_num`
argument). The success branch first reads `scores[objective.name]` inside an
f-string: when the score dict lacks the primary objective, that `KeyError` is
raised inside the `try` and handled like any other exception. In the
`PipelineScoreError` branch a missing objective raises `KeyError` inside the
`except` handler, which propagates. -/
def trainAndScore (cfg : AutomlConfig) (fold_num : Option Nat) (i : Nat)
    (outcome : FoldOutcome) : Except EvalError TSOut :=
  let cbs : List Nat := if cfg.error_callback then [i] else []
  match outcome with
  | .success scores th =>
    match alookup scores cfg.objective.name with
    | some s => .ok ⟨s, scores, th, []⟩
    | none => .ok ⟨ScoreVal.nan, nanFill cfg, th, cbs⟩
  | .scoreError e th =>
    match buildPartialScores e (objectivesOf cfg) with
    | .error n => .error (.keyError n)
    | .ok scoresOD => .ok ⟨(alookup scoresOD cfg.objective.name).getD ScoreVal.nan, scoresOD, th, cbs⟩
  | .otherError th => .ok ⟨ScoreVal.nan, nanFill cfg, th, cbs⟩

/-! ## Evaluation entries and the fold loop -/

/-- A value of the fold's ordered score mapping: an objective score or one of
the two `"# Training"`/`"# Validation"` row counts. -/
inductive EntryVal where
  | score (s : ScoreVal)
  | count (n : Nat)
deriving DecidableEq, Repr

/-- `OrderedDict.update` with a single key: an existing key keeps its position
and gets the new value, a new key is appended. -/
def odUpdate (d : List (String × EntryVal)) (k : String) (v : EntryVal) :
    List (String × EntryVal) :=
  if d.any (fun p => p.1 == k) then d.map (fun p => if p.1 = k then (k, v) else p)
  else d ++ [(k, v)]

/-- The `ordered_scores` construction: start from `{objective.name: score}`,
update with the fold's `scores` dict, then append the training and validation
row counts. -/
def buildOrderedScores (cfg : AutomlConfig) (score : ScoreVal)
    (scores : List (String × ScoreVal)) (nTrain nValid : Nat) :
    List (String × EntryVal) :=
  let d0 := odUpdate [] cfg.objective.name (EntryVal.score score)
  let d1 := scores.foldl (fun d p => odUpdate d p.1 (EntryVal.score p.2)) d0
  let d2 := odUpdate d1 "# Training" (EntryVal.count nTrain)
  odUpdate d2 "# Validation" (EntryVal.count nValid)

/-- One `cv_data` element. -/
structure EvaluationEntry where
  all_objective_scores : List (String × EntryVal)
  mean_cv_score : ScoreVal
  binary_classification_threshold : Option ℚ
deriving DecidableEq, Repr

/-- The per-fold body after the slices exist: call `_train_and_score`, build
`ordered_scores` and the evaluation entry, and record the threshold when the
problem is binary and the returned pipeline has one (`stored_pipeline` is the
pipeline `_train_and_score` returns and is never `None`). -/
def mkFoldEntry (cfg : AutomlConfig) (i : Nat) (outcome : FoldOutcome)
    (y_train y_valid : List ℤ) : Except EvalError (EvaluationEntry × List EvalEvent) :=
  match trainAndScore cfg (some i) i outcome with
  | .error e => .error e
  | .ok r =>
    let entry : EvaluationEntry :=
      { all_objective_scores := buildOrderedScores cfg r.score r.scores y_train.length y_valid.length
        mean_cv_score := r.score
        binary_classification_threshold :=
          if is_binary cfg.problem_type && r.threshold.isSome then r.threshold else none }
    .ok (entry, EvalEvent.trainScorePass y_train y_valid :: r.callback_folds.map EvalEvent.errorCallback)

/-- One iteration of the fold loop: slice the (already encoded) target by the
fold's positional indices, run the missing-target-class check for binary and
multiclass problems — raising the descriptive `Exception` when either slice
misses values of the full target — and then train and score the fold. -/
def processFold (cfg : AutomlConfig) (encY : List ℤ) (i : Nat) (fs : FoldSpec) :
    Except EvalError (EvaluationEntry × List EvalEvent) :=
  if allInRange fs.train encY.length && allInRange fs.valid encY.length then
    let y_train := ilocSelect encY fs.train
    let y_valid := ilocSelect encY fs.valid
    if isBinaryOrMulticlass cfg.problem_type then
      let diff_train := setdiff1d encY y_train
      let diff_valid := setdiff1d encY y_valid
      if diff_train = [] ∧ diff_valid = [] then mkFoldEntry cfg i fs.outcome y_train y_valid
      else .error (.missingTargetValues diff_train diff_valid)
    else mkFoldEntry cfg i fs.outcome y_train y_valid
  else .error .indexError

/-- The fold loop itself, threading the `enumerate` counter. -/
def runFolds (cfg : AutomlConfig) (encY : List ℤ) : Nat → List FoldSpec →
    Except EvalError (List EvaluationEntry × List EvalEvent)
  | _, [] => .ok ([], [])
  | i, fs :: rest =>
    match processFold cfg encY i fs with
    | .error e => .error e
    | .ok (entry, evs) =>
      match runFolds cfg encY (i + 1) rest with
      | .error e => .error e
      | .ok (entries, evs2) => .ok (entry :: entries, evs ++ evs2)

/-- The `scores` dictionary of the returned result. `holdout_score` and
`holdout_scores` are `none` exactly when the Python fields are `None`
(holdout absent). `training_time` (wall clock) is not modelled. -/
structure EvalScores where
  cv_data : List EvaluationEntry
  cv_scores : List ScoreVal
  cv_score_mean : ScoreVal
  holdout_score : Option ScoreVal
  holdout_scores : Option (List (String × ScoreVal))
deriving DecidableEq, Repr

/-- The target the fold loop actually slices: re-encoded for classification
problem types, the original otherwise (the source reassigns `full_y_train`). -/
def encodedTarget (cfg : AutomlConfig) (y : List ℤ) : List ℤ :=
  if is_classification cfg.problem_type then encodeClassificationTarget y else y

/-- The holdout target the holdout pass scores against: re-encoded (with its
own frequency mapping) when the problem is classification and holdout data is
in use. -/
def encodedHoldout (cfg : AutomlConfig) (use_holdout : Bool) (y_holdout : Option (List ℤ)) :
    Option (List ℤ) :=
  if is_classification cfg.problem_type && use_holdout then
    y_holdout.map encodeClassificationTarget
  else y_holdout

/-- Source `train_and_score_pipeline`. `folds` is what
`automl_config.data_splitter.split(...)` yields, each fold paired with the
oracle outcome of its external training/scoring calls; `holdoutOutcome` is the
oracle for the holdout pass. `xHoldoutPresent` models `X_holdout is not None`.
When the splitter yielded no folds and a holdout pass runs, the closure reads
the never-bound loop variable `i` and Python raises `NameError`. -/
def trainAndScorePipeline (cfg : AutomlConfig) (full_y_train : List ℤ)
    (folds : List FoldSpec) (xHoldoutPresent : Bool) (y_holdout : Option (List ℤ))
    (holdoutOutcome : FoldOutcome) :
    Except EvalError (EvalScores × List EvalEvent) :=
  let use_holdout := xHoldoutPresent && y_holdout.isSome
  let encY := encodedTarget cfg full_y_train
  let yh := encodedHoldout cfg use_holdout y_holdout
  match runFolds cfg encY 0 folds with
  | .error e => .error e
  | .ok (cv_data, events) =>
    let cv_scores := cv_data.map (fun fold => fold.mean_cv_score)
    let cv_score_mean := pandasMean cv_scores
    if use_holdout then
      match folds with
      | [] => .error .nameErrorUnboundLoopVar
      | _ :: _ =>
        match trainAndScore cfg none (folds.length - 1) holdoutOutcome with
        | .error e => .error e
        | .ok r =>
          .ok ({ cv_data := cv_data, cv_scores := cv_scores, cv_score_mean := cv_score_mean
                 holdout_score := some r.score, holdout_scores := some r.scores },
               events ++ (EvalEvent.trainScorePass encY (yh.getD []) ::
                 r.callback_folds.map EvalEvent.errorCallback))
    else
      .ok ({ cv_data := cv_data, cv_scores := cv_scores, cv_score_mean := cv_score_mean
             holdout_score := none, holdout_scores := none }, events)

/-- The `(y_train, y_score)` slices of the `_train_and_score` invocations in a
trace, in order. -/
def passList : List EvalEvent → List (List ℤ × List ℤ)
  | [] => []
  | .trainScorePass a b :: r => (a, b) :: passList r
  | .errorCallback _ :: r => passList r

/-- The `fold_num` arguments of the error-callback invocations in a trace, in
order. -/
def callbackList : List EvalEvent → List Nat
  | [] => []
  | .trainScorePass _ _ :: r => callbackList r
  | .errorCallback n :: r => n :: callbackList r

/-- Whether an `Except` computation succeeded. -/
def exceptIsOk {ε α : Type} : Except ε α → Bool
  | .ok _ => true
  | .error _ => false

/-- Key sequence after repeatedly `OrderedDict`-updating a dict with key
sequence `ks` by the keys of `L` in order: existing keys keep their position,
new keys are appended. -/
def keyUnion (ks : List String) : List String → List String
  | [] => ks
  | k :: L => if ks.any (fun s => s == k) then keyUnion ks L else keyUnion (ks ++ [k]) L

/-! ## Shared concrete inputs for witnesses and counterexamples -/

/-- A regression configuration with one objective and a configured error
callback. -/
def exCfgReg : AutomlConfig := ⟨⟨"obj"⟩, [], ProblemType.regression, true⟩

/-- Two folds over a four-row target: the first trains and scores fine, the
second raises a generic exception. -/
def exFoldsMixed : List FoldSpec :=
  [⟨[0, 1], [2], FoldOutcome.success [("obj", ScoreVal.val 1)] none⟩,
   ⟨[0, 1], [3], FoldOutcome.otherError none⟩]

/-- A binary-classification configuration whose target labels (10 and 20) are
distinguishable from their dense re-encoding (0 and 1). -/
def exCfgBin : AutomlConfig := ⟨⟨"Log Loss"⟩, [], ProblemType.binary, false⟩

/-- A binary-classification configuration with a primary and one additional
objective and a configured error callback. -/
def exCfgABbin : AutomlConfig := ⟨⟨"A"⟩, [⟨"B"⟩], ProblemType.binary, true⟩

/-- A regression configuration with a primary and one additional objective
and a configured error callback. -/
def exCfgAB : AutomlConfig := ⟨⟨"A"⟩, [⟨"B"⟩], ProblemType.regression, true⟩

/-- A `PipelineScoreError` payload: objective "A" raised, objective "B"
scored 8. -/
def exPSE : PipelineScoreExn := ⟨["A"], [("B", ScoreVal.val 8)]⟩

/-- A successful binary fold scoring objectives "A" and "B" whose fitted
pipeline carries a tuned threshold of 3. -/
def exFoldC8 : FoldSpec :=
  ⟨[0, 1], [0, 1], FoldOutcome.success [("A", ScoreVal.val 1), ("B", ScoreVal.val 2)] (some 3)⟩

/-- One fold over the target `[0, 1, 2, 0]` whose training slice (rows 0, 1,
3) misses class 2 while its validation slice covers every class. -/
def exFoldsC6 : List FoldSpec := [⟨[0, 1, 3], [0, 1, 2, 3], FoldOutcome.otherError none⟩]

/-- One successful fold for the holdout-path run. -/
def exFoldsH : List FoldSpec := [⟨[0], [1], FoldOutcome.success [("obj", ScoreVal.val 1)] none⟩]

/-- Outcome of the holdout pass in the holdout-path run. -/
def exHoldoutOutcome : FoldOutcome := FoldOutcome.success [("obj", ScoreVal.val 2)] none

/-- The single evaluation entry the holdout-path run produces. -/
def exEntryH : EvaluationEntry :=
  ⟨[("obj", EntryVal.score (ScoreVal.val 1)), ("# Training", EntryVal.count 1),
    ("# Validation", EntryVal.count 1)], ScoreVal.val 1, none⟩

/-- The scores the holdout-path run returns. -/
def exScoresH : EvalScores :=
  ⟨[exEntryH], [ScoreVal.val 1], pandasMean [ScoreVal.val 1], some (ScoreVal.val 2),
   some [("obj", ScoreVal.val 2)]⟩

/-- The event trace of the holdout-path run: the fold's pass, then the
holdout pass over the full training target and the holdout target. -/
def exEvH : List EvalEvent :=
  [EvalEvent.trainScorePass [0] [1], EvalEvent.trainScorePass [0, 1] [5]]

/-! ## Supporting lemmas: JobLogger -/

theorem applyCall_logs (l : JobLogger) (c : LogCall) :
    (l.applyCall c).logs = l.logs ++ [callEntry c] := by
  cases c <;> rfl

theorem applyCalls_logs (l : JobLogger) (cs : List LogCall) :
    (l.applyCalls cs).logs = l.logs ++ cs.map callEntry := by
  induction cs generalizing l with
  | nil => simp [JobLogger.applyCalls]
  | cons c cs ih =>
    simp only [JobLogger.applyCalls, List.foldl_cons, List.map_cons]
    rw [show List.foldl JobLogger.applyCall (l.applyCall c) cs = (l.applyCall c).applyCalls cs from rfl,
      ih, applyCall_logs, List.append_assoc, List.singleton_append]

theorem writeLevel_ne_error (lv : LogLevel) : writeLevel lv ≠ LogLevel.error := by
  cases lv <;> simp [writeLevel]

/-! ## Supporting lemmas: pandas mean -/

theorem pandasMean_eq_nan_iff (xs : List ScoreVal) :
    pandasMean xs = ScoreVal.nan ↔ ∀ x ∈ xs, x = ScoreVal.nan := by
  by_cases h : (xs.filterMap ScoreVal.toVal).isEmpty = true
  case pos =>
    simp only [pandasMean, h, if_true]
    simp only [true_iff]
    rw [List.isEmpty_iff, List.filterMap_eq_nil_iff] at h
    intro x hx
    have := h x hx
    cases x with
    | nan => rfl
    | val q => simp [ScoreVal.toVal] at this
  case neg =>
    simp only [pandasMean, h, if_false]
    constructor
    · intro hcontra; exact absurd hcontra (by simp)
    · intro hall
      exfalso
      apply h
      rw [List.isEmpty_iff, List.filterMap_eq_nil_iff]
      intro x hx
      rw [hall x hx]
      rfl

/-! ## Claim theorems: JobLogger -/

/-- Claim C7: each `info`/`debug`/`warning`/`error` call appends its
`(level, message)` pair to the buffer in call order, and `write_to_logger`
replays every buffered entry to the target in FIFO order through the
same-named method, except that buffered `error` entries are replayed through
the target's `warning` method — no replayed call is ever an `error` call. -/
theorem joblogger_buffers_in_order_and_replays_error_as_warning (cs : List LogCall) :
    (JobLogger.applyCalls ⟨[]⟩ cs).logs = cs.map callEntry ∧
    ((JobLogger.applyCalls ⟨[]⟩ cs).write_to_logger).2
      = cs.map (fun c => (writeLevel (callEntry c).1, (callEntry c).2)) ∧
    ∀ p ∈ ((JobLogger.applyCalls ⟨[]⟩ cs).write_to_logger).2, p.1 ≠ LogLevel.error := by
  have hlogs : (JobLogger.applyCalls ⟨[]⟩ cs).logs = cs.map callEntry := by
    rw [applyCalls_logs]; rfl
  refine ⟨hlogs, ?_, ?_⟩
  · simp [JobLogger.write_to_logger, hlogs]
  · intro p hp
    simp only [JobLogger.write_to_logger, List.mem_map] at hp
    obtain ⟨q, _, hq⟩ := hp
    rw [← hq]
    exact writeLevel_ne_error q.1

/-- Claim C10: `write_to_logger` does not clear or otherwise change the
buffer, so a second `write_to_logger` call delivers exactly the same message
list again — two successive calls deliver every buffered message twice. -/
theorem write_to_logger_keeps_buffer_and_replays_again (l : JobLogger) :
    (l.write_to_logger).1 = l ∧
    ((l.write_to_logger).1.write_to_logger).2 = (l.write_to_logger).2 ∧
    twiceDelivered l = (l.write_to_logger).2 ++ (l.write_to_logger).2 := by
  exact ⟨rfl, rfl, rfl⟩
/-! ## Claim C2 -/

/-- Counterexample to claim C2: a two-fold evaluation whose second fold fails
(primary score NaN) but whose `cv_score_mean` is the non-NaN value 1, because
`pd.Series(...).mean()` skips NaN values by default instead of propagating
them. -/
theorem cv_score_mean_not_nan_propagating_cex :
    ∃ s ev, trainAndScorePipeline exCfgReg [0, 1, 2, 3] exFoldsMixed false none
        (FoldOutcome.otherError none) = Except.ok (s, ev) ∧
      s.cv_data.map (fun e => e.mean_cv_score) = [ScoreVal.val 1, ScoreVal.nan] ∧
      s.cv_score_mean = ScoreVal.val 1 ∧ s.cv_score_mean ≠ ScoreVal.nan := by
  refine ⟨_, _, rfl, by decide, ?_, ?_⟩
  · show pandasMean [ScoreVal.val 1, ScoreVal.nan] = ScoreVal.val 1
    simp [pandasMean, ScoreVal.toVal]
  · show pandasMean [ScoreVal.val 1, ScoreVal.nan] ≠ ScoreVal.nan
    simp [pandasMean, ScoreVal.toVal]
/-- Claim C2 (amended): for every evaluation that returns, `cv_score_mean` is
the pandas mean of the per-fold primary scores — the arithmetic mean over the
folds whose primary score is not NaN — and it is NaN exactly when every fold's
primary score is NaN (in particular when there are no folds). NaN fold scores
are skipped, not propagated. -/
theorem cv_score_mean_is_nan_skipping_mean (cfg : AutomlConfig) (y : List ℤ)
    (folds : List FoldSpec) (xh : Bool) (yh : Option (List ℤ)) (ho : FoldOutcome)
    (s : EvalScores) (ev : List EvalEvent)
    (h : trainAndScorePipeline cfg y folds xh yh ho = Except.ok (s, ev)) :
    s.cv_score_mean = pandasMean (s.cv_data.map (fun e => e.mean_cv_score)) ∧
    (s.cv_score_mean = ScoreVal.nan ↔ ∀ e ∈ s.cv_data, e.mean_cv_score = ScoreVal.nan) := by
  have hmean : s.cv_score_mean = pandasMean (s.cv_data.map (fun e => e.mean_cv_score)) := by
    simp only [trainAndScorePipeline] at h
    cases hr : runFolds cfg (encodedTarget cfg y) 0 folds with
    | error e => rw [hr] at h; exact absurd h (by simp)
    | ok pr =>
      obtain ⟨cv_data, events⟩ := pr
      rw [hr] at h
      simp only at h
      split at h
      · split at h
        · exact absurd h (by simp)
        · split at h
          · exact absurd h (by simp)
          · simp only [Except.ok.injEq, Prod.mk.injEq] at h
            rw [← h.1]
      · simp only [Except.ok.injEq, Prod.mk.injEq] at h
        rw [← h.1]
  refine ⟨hmean, ?_⟩
  rw [hmean, pandasMean_eq_nan_iff]
  constructor
  · intro hall e he
    exact hall _ (List.mem_map.mpr ⟨e, he, rfl⟩)
  · intro hall x hx
    obtain ⟨e, he, rfl⟩ := List.mem_map.mp hx
    exact hall e he

/-- Witness for `cv_score_mean_is_nan_skipping_mean`: a returning evaluation
(the zero-fold one, whose pandas mean is NaN). -/
theorem cv_score_mean_is_nan_skipping_mean_witness :
    (EvalScores.mk [] [] (pandasMean []) none none).cv_score_mean
      = pandasMean ((EvalScores.mk [] [] (pandasMean []) none none).cv_data.map
          (fun e => e.mean_cv_score)) ∧
    ((EvalScores.mk [] [] (pandasMean []) none none).cv_score_mean = ScoreVal.nan ↔
      ∀ e ∈ (EvalScores.mk [] [] (pandasMean []) none none).cv_data,
        e.mean_cv_score = ScoreVal.nan) :=
  cv_score_mean_is_nan_skipping_mean exCfgReg [] [] false none (FoldOutcome.otherError none)
    (EvalScores.mk [] [] (pandasMean []) none none) [] rfl

/-! ## Supporting lemmas: association lists -/

theorem alookup_append_some {β : Type} {a : List (String × β)} {k : String} {v : β}
    (b : List (String × β)) (h : alookup a k = some v) : alookup (a ++ b) k = some v := by
  induction a with
  | nil => simp [alookup] at h
  | cons p ps ih =>
    by_cases hp : p.1 = k
    · simp only [alookup, if_pos hp] at h ⊢
      exact h
    · simp only [alookup, if_neg hp] at h ⊢
      exact ih h

theorem alookup_append_none {β : Type} {a : List (String × β)} {k : String}
    (b : List (String × β)) (h : alookup a k = none) : alookup (a ++ b) k = alookup b k := by
  induction a with
  | nil => rfl
  | cons p ps ih =>
    by_cases hp : p.1 = k
    · simp only [alookup, if_pos hp] at h
      exact absurd h (by simp)
    · simp only [alookup, if_neg hp] at h ⊢
      exact ih h

theorem alookup_mem {β : Type} {d : List (String × β)} {k : String} {v : β}
    (h : alookup d k = some v) : (k, v) ∈ d := by
  induction d with
  | nil => simp [alookup] at h
  | cons p ps ih =>
    obtain ⟨k0, v0⟩ := p
    by_cases hp : k0 = k
    · simp only [alookup, if_pos hp] at h
      simp only [Option.some.injEq] at h
      subst hp; subst h
      exact List.mem_cons_self _ _
    · simp only [alookup, if_neg hp] at h
      exact List.mem_cons_of_mem _ (ih h)

theorem alookup_isSome_iff {β : Type} (d : List (String × β)) (k : String) :
    (alookup d k).isSome = true ↔ k ∈ d.map Prod.fst := by
  induction d with
  | nil => simp [alookup]
  | cons p ps ih =>
    by_cases hp : p.1 = k
    · simp [alookup, hp]
    · simp only [alookup, if_neg hp, List.map_cons, List.mem_cons, ih]
      constructor
      · exact fun h => Or.inr h
      · intro h
        cases h with
        | inl h => exact absurd h.symm hp
        | inr h => exact h

theorem alookup_eq_none_of_not_mem {β : Type} {d : List (String × β)} {k : String}
    (h : k ∉ d.map Prod.fst) : alookup d k = none := by
  cases halo : alookup d k with
  | none => rfl
  | some v =>
    exfalso
    exact h ((alookup_isSome_iff d k).mp (by rw [halo]; rfl))

/-! ## Supporting lemmas: OrderedDict updates -/

theorem alookup_map_replace_ne (d : List (String × EntryVal)) (k k' : String) (v : EntryVal)
    (hne : k' ≠ k) :
    alookup (d.map (fun p => if p.1 = k then (k, v) else p)) k' = alookup d k' := by
  induction d with
  | nil => rfl
  | cons p ps ih =>
    by_cases hp : p.1 = k
    · have h1 : k ≠ k' := fun h => hne h.symm
      have h2 : p.1 ≠ k' := by rw [hp]; exact h1
      simp only [List.map_cons, if_pos hp, alookup, if_neg h1, if_neg h2]
      exact ih
    · simp only [List.map_cons, if_neg hp, alookup]
      by_cases hq : p.1 = k'
      · simp [if_pos hq]
      · simp only [if_neg hq]
        exact ih

theorem alookup_map_replace_eq (d : List (String × EntryVal)) (k : String) (v : EntryVal)
    (hany : d.any (fun p => p.1 == k) = true) :
    alookup (d.map (fun p => if p.1 = k then (k, v) else p)) k = some v := by
  induction d with
  | nil => simp at hany
  | cons p ps ih =>
    by_cases hp : p.1 = k
    · simp [List.map_cons, if_pos hp, alookup]
    · have hrest : ps.any (fun p => p.1 == k) = true := by
        simp only [List.any_cons, Bool.or_eq_true, beq_iff_eq] at hany
        exact (hany.resolve_left hp)
      simp only [List.map_cons, if_neg hp, alookup, if_neg hp]
      exact ih hrest

theorem alookup_odUpdate (d : List (String × EntryVal)) (k k' : String) (v : EntryVal) :
    alookup (odUpdate d k v) k' = if k' = k then some v else alookup d k' := by
  unfold odUpdate
  by_cases hany : d.any (fun p => p.1 == k) = true
  · rw [if_pos hany]
    by_cases hk : k' = k
    · subst hk
      rw [if_pos rfl]
      exact alookup_map_replace_eq d k' v hany
    · rw [if_neg hk]
      exact alookup_map_replace_ne d k k' v hk
  · rw [if_neg hany]
    by_cases hk : k' = k
    · subst hk
      rw [if_pos rfl]
      have hnone : alookup d k' = none := by
        apply alookup_eq_none_of_not_mem
        intro hmem
        apply hany
        obtain ⟨p, hp, hfst⟩ := List.mem_map.mp hmem
        rw [List.any_eq_true]
        exact ⟨p, hp, by rw [beq_iff_eq, hfst]⟩
      rw [alookup_append_none _ hnone]
      simp [alookup]
    · rw [if_neg hk]
      cases halo : alookup d k' with
      | some w => exact alookup_append_some _ halo
      | none =>
        rw [alookup_append_none _ halo]
        have : ¬ ((k, v).1 = k') := fun h => hk h.symm
        simp [alookup, this]

theorem keys_map_replace (d : List (String × EntryVal)) (k : String) (v : EntryVal) :
    (d.map (fun p => if p.1 = k then (k, v) else p)).map Prod.fst = d.map Prod.fst := by
  induction d with
  | nil => rfl
  | cons p ps ih =>
    by_cases hp : p.1 = k
    · simp only [List.map_cons, if_pos hp, ih]
      rw [← hp]
    · simp only [List.map_cons, if_neg hp, ih]

theorem keys_odUpdate (d : List (String × EntryVal)) (k : String) (v : EntryVal) :
    (odUpdate d k v).map Prod.fst =
      if d.any (fun p => p.1 == k) then d.map Prod.fst else d.map Prod.fst ++ [k] := by
  unfold odUpdate
  by_cases hany : d.any (fun p => p.1 == k) = true
  · rw [if_pos hany, if_pos hany]
    exact keys_map_replace d k v
  · rw [if_neg hany, if_neg hany]
    simp

theorem any_key (d : List (String × EntryVal)) (k : String) :
    (d.map Prod.fst).any (fun s => s == k) = d.any (fun p => p.1 == k) := by
  induction d with
  | nil => rfl
  | cons p ps ih => simp only [List.map_cons, List.any_cons, ih]

/-! ## Supporting lemmas: key sequences of folded updates -/

theorem keyUnion_fresh (L : List String) : ∀ ks : List String, L.Nodup →
    (∀ k ∈ L, k ∉ ks) → keyUnion ks L = ks ++ L := by
  induction L with
  | nil => intro ks _ _; simp [keyUnion]
  | cons k L ih =>
    intro ks hnd hfresh
    have hk : k ∉ ks := hfresh k (List.mem_cons_self k L)
    have hany : ks.any (fun s => s == k) = false := by
      cases hh : ks.any (fun s => s == k) with
      | false => rfl
      | true =>
        obtain ⟨s, hs, hsk⟩ := List.any_eq_true.mp hh
        rw [beq_iff_eq] at hsk
        subst hsk
        exact absurd hs hk
    rw [keyUnion, hany]
    simp only [Bool.false_eq_true, if_false]
    rw [ih (ks ++ [k]) (List.nodup_cons.mp hnd).2 ?_]
    · simp
    · intro k' hk' hmem
      rcases List.mem_append.mp hmem with hmem | hmem
      · exact hfresh k' (List.mem_cons_of_mem _ hk') hmem
      · rw [List.mem_singleton] at hmem
        subst hmem
        exact (List.nodup_cons.mp hnd).1 hk'

theorem keys_foldl_odUpdate (L : List (String × ScoreVal)) :
    ∀ d : List (String × EntryVal),
    ((L.foldl (fun d p => odUpdate d p.1 (EntryVal.score p.2)) d).map Prod.fst)
      = keyUnion (d.map Prod.fst) (L.map Prod.fst) := by
  induction L with
  | nil => intro d; rfl
  | cons p L ih =>
    intro d
    simp only [List.foldl_cons, List.map_cons, keyUnion]
    rw [ih, keys_odUpdate, any_key]
    by_cases hany : d.any (fun q => q.1 == p.1) = true
    · rw [if_pos hany, if_pos hany]
    · rw [if_neg hany, if_neg hany]

theorem alookup_foldl_odUpdate (L : List (String × ScoreVal)) :
    ∀ (d : List (String × EntryVal)) (k : String),
    alookup (L.foldl (fun d p => odUpdate d p.1 (EntryVal.score p.2)) d) k =
      match alookup L.reverse k with
      | some v => some (EntryVal.score v)
      | none => alookup d k := by
  induction L with
  | nil => intro d k; rfl
  | cons p L ih =>
    intro d k
    simp only [List.foldl_cons, List.reverse_cons]
    rw [ih]
    cases hL : alookup L.reverse k with
    | some v =>
      rw [alookup_append_some [p] hL]
    | none =>
      rw [alookup_append_none [p] hL, alookup_odUpdate]
      by_cases hp : p.1 = k
      · simp [alookup, if_pos hp, hp.symm]
      · have : ¬ (k = p.1) := fun h => hp h.symm
        simp [alookup, if_neg hp, if_neg this]

/-! ## Supporting lemmas: the ordered score mapping -/

theorem alookup_buildOrderedScores (cfg : AutomlConfig) (s : ScoreVal)
    (scores : List (String × ScoreVal)) (n1 n2 : Nat) (k : String)
    (h1 : k ≠ "# Training") (h2 : k ≠ "# Validation") :
    alookup (buildOrderedScores cfg s scores n1 n2) k =
      match alookup scores.reverse k with
      | some v => some (EntryVal.score v)
      | none => if k = cfg.objective.name then some (EntryVal.score s) else none := by
  simp only [buildOrderedScores]
  rw [alookup_odUpdate, if_neg h2, alookup_odUpdate, if_neg h1, alookup_foldl_odUpdate]
  cases hrev : alookup scores.reverse k with
  | some v => rfl
  | none =>
    simp only
    rw [alookup_odUpdate]
    by_cases hk : k = cfg.objective.name
    · rw [if_pos hk, if_pos hk]
    · rw [if_neg hk, if_neg hk]
      rfl

theorem keys_buildOrderedScores (cfg : AutomlConfig) (s : ScoreVal)
    (scores : List (String × ScoreVal)) (n1 n2 : Nat)
    (hkeys : keyUnion [cfg.objective.name] (scores.map Prod.fst)
      = (objectivesOf cfg).map Objective.name)
    (hf1 : "# Training" ∉ (objectivesOf cfg).map Objective.name)
    (hf2 : "# Validation" ∉ (objectivesOf cfg).map Objective.name) :
    (buildOrderedScores cfg s scores n1 n2).map Prod.fst
      = (objectivesOf cfg).map Objective.name ++ ["# Training", "# Validation"] := by
  simp only [buildOrderedScores]
  have hd0 : (odUpdate [] cfg.objective.name (EntryVal.score s)).map Prod.fst
      = [cfg.objective.name] := by
    rfl
  have hd1 : ((scores.foldl (fun d p => odUpdate d p.1 (EntryVal.score p.2))
      (odUpdate [] cfg.objective.name (EntryVal.score s))).map Prod.fst)
      = (objectivesOf cfg).map Objective.name := by
    rw [keys_foldl_odUpdate, hd0, hkeys]
  have hanyOf : ∀ (d : List (String × EntryVal)) (c : String),
      d.map Prod.fst = (objectivesOf cfg).map Objective.name →
      c ∉ (objectivesOf cfg).map Objective.name →
      d.any (fun p => p.1 == c) = false := by
    intro d c hd hc
    cases hh : d.any (fun p => p.1 == c) with
    | false => rfl
    | true =>
      obtain ⟨p, hp, hpc⟩ := List.any_eq_true.mp hh
      rw [beq_iff_eq] at hpc
      exfalso
      apply hc
      rw [← hd]
      exact List.mem_map.mpr ⟨p, hp, hpc⟩
  have h2 := keys_odUpdate (scores.foldl (fun d p => odUpdate d p.1 (EntryVal.score p.2))
      (odUpdate [] cfg.objective.name (EntryVal.score s))) "# Training" (EntryVal.count n1)
  rw [hanyOf _ _ hd1 hf1] at h2
  simp only [Bool.false_eq_true, if_false] at h2
  rw [hd1] at h2
  have h3 := keys_odUpdate (odUpdate (scores.foldl (fun d p => odUpdate d p.1 (EntryVal.score p.2))
      (odUpdate [] cfg.objective.name (EntryVal.score s))) "# Training" (EntryVal.count n1))
      "# Validation" (EntryVal.count n2)
  have hf2' : "# Validation" ∉ (objectivesOf cfg).map Objective.name ++ ["# Training"] := by
    intro hmem
    rcases List.mem_append.mp hmem with hmem | hmem
    · exact hf2 hmem
    · rw [List.mem_singleton] at hmem
      exact absurd hmem (by decide)
  have hany3 : (odUpdate (scores.foldl (fun d p => odUpdate d p.1 (EntryVal.score p.2))
      (odUpdate [] cfg.objective.name (EntryVal.score s))) "# Training"
      (EntryVal.count n1)).any (fun p => p.1 == "# Validation") = false := by
    cases hh : (odUpdate (scores.foldl (fun d p => odUpdate d p.1 (EntryVal.score p.2))
        (odUpdate [] cfg.objective.name (EntryVal.score s))) "# Training"
        (EntryVal.count n1)).any (fun p => p.1 == "# Validation") with
    | false => rfl
    | true =>
      obtain ⟨p, hp, hpc⟩ := List.any_eq_true.mp hh
      rw [beq_iff_eq] at hpc
      exfalso
      apply hf2'
      rw [← h2]
      exact List.mem_map.mpr ⟨p, hp, hpc⟩
  rw [hany3] at h3
  simp only [Bool.false_eq_true, if_false] at h3
  rw [h2] at h3
  rw [h3]
  simp

/-! ## Supporting lemmas: NaN fills and partial scores -/

theorem nanFill_keys (cfg : AutomlConfig) :
    (nanFill cfg).map Prod.fst = cfg.additional_objectives.map Objective.name := by
  simp [nanFill]

theorem nanFill_vals (cfg : AutomlConfig) :
    ∀ p ∈ nanFill cfg, p.2 = ScoreVal.nan := by
  intro p hp
  simp only [nanFill, List.mem_map] at hp
  obtain ⟨o, _, ho⟩ := hp
  rw [← ho]

theorem alookup_entry_nan (cfg : AutomlConfig) (n1 n2 : Nat) (k : String)
    (h1 : k ≠ "# Training") (h2 : k ≠ "# Validation")
    (hk : k = cfg.objective.name ∨ k ∈ cfg.additional_objectives.map Objective.name) :
    alookup (buildOrderedScores cfg ScoreVal.nan (nanFill cfg) n1 n2) k
      = some (EntryVal.score ScoreVal.nan) := by
  rw [alookup_buildOrderedScores cfg ScoreVal.nan (nanFill cfg) n1 n2 k h1 h2]
  cases hrev : alookup (nanFill cfg).reverse k with
  | some v =>
    have hmemrev := alookup_mem hrev
    rw [List.mem_reverse] at hmemrev
    have hv : v = ScoreVal.nan := nanFill_vals cfg (k, v) hmemrev
    rw [hv]
  | none =>
    cases hk with
    | inl h => simp [h]
    | inr h =>
      exfalso
      have hsome : (alookup (nanFill cfg).reverse k).isSome = true := by
        rw [alookup_isSome_iff, List.map_reverse, List.mem_reverse, nanFill_keys]
        exact h
      rw [hrev] at hsome
      simp at hsome

theorem buildPartialScores_isOk (e : PipelineScoreExn) (objs : List Objective)
    (h : ∀ o ∈ objs, (mergedLookup e o.name).isSome = true) :
    ∃ L, buildPartialScores e objs = .ok L := by
  induction objs with
  | nil => exact ⟨[], rfl⟩
  | cons o os ih =>
    have ho := h o (List.mem_cons_self o os)
    cases hm : mergedLookup e o.name with
    | none => rw [hm] at ho; simp at ho
    | some v =>
      obtain ⟨L, hL⟩ := ih (fun o' ho' => h o' (List.mem_cons_of_mem _ ho'))
      exact ⟨(o.name, v) :: L, by simp [buildPartialScores, hm, hL, Except.map]⟩

theorem buildPartialScores_keys (e : PipelineScoreExn) :
    ∀ (objs : List Objective) (L : List (String × ScoreVal)),
    buildPartialScores e objs = .ok L → L.map Prod.fst = objs.map Objective.name := by
  intro objs
  induction objs with
  | nil =>
    intro L hL
    simp only [buildPartialScores, Except.ok.injEq] at hL
    rw [← hL]
    rfl
  | cons o os ih =>
    intro L hL
    simp only [buildPartialScores] at hL
    cases hm : mergedLookup e o.name with
    | none => rw [hm] at hL; simp at hL
    | some v =>
      rw [hm] at hL
      cases hrest : buildPartialScores e os with
      | error n => rw [hrest] at hL; simp [Except.map] at hL
      | ok L' =>
        rw [hrest] at hL
        simp only [Except.map, Except.ok.injEq] at hL
        rw [← hL]
        simp only [List.map_cons, List.map_cons]
        rw [ih L' hrest]

theorem buildPartialScores_vals (e : PipelineScoreExn) :
    ∀ (objs : List Objective) (L : List (String × ScoreVal)),
    buildPartialScores e objs = .ok L → ∀ p ∈ L, mergedLookup e p.1 = some p.2 := by
  intro objs
  induction objs with
  | nil =>
    intro L hL
    simp only [buildPartialScores, Except.ok.injEq] at hL
    rw [← hL]
    intro p hp
    simp at hp
  | cons o os ih =>
    intro L hL
    simp only [buildPartialScores] at hL
    cases hm : mergedLookup e o.name with
    | none => rw [hm] at hL; simp at hL
    | some v =>
      rw [hm] at hL
      cases hrest : buildPartialScores e os with
      | error n => rw [hrest] at hL; simp [Except.map] at hL
      | ok L' =>
        rw [hrest] at hL
        simp only [Except.map, Except.ok.injEq] at hL
        rw [← hL]
        intro p hp
        rcases List.mem_cons.mp hp with hp | hp
        · subst hp; exact hm
        · exact ih L' hrest p hp

/-! ## Supporting lemmas: the per-fold body -/

theorem processFold_gate_ok (cfg : AutomlConfig) (encY : List ℤ) (i : Nat) (fs : FoldSpec)
    (htr : allInRange fs.train encY.length = true)
    (hva : allInRange fs.valid encY.length = true)
    (hgate : isBinaryOrMulticlass cfg.problem_type = false ∨
      (setdiff1d encY (ilocSelect encY fs.train) = [] ∧
       setdiff1d encY (ilocSelect encY fs.valid) = [])) :
    processFold cfg encY i fs =
      mkFoldEntry cfg i fs.outcome (ilocSelect encY fs.train) (ilocSelect encY fs.valid) := by
  simp only [processFold, htr, hva, Bool.and_self, if_true]
  cases hgate with
  | inl h => simp [h]
  | inr h => simp [h.1, h.2]

theorem keyUnion_primary_addl (cfg : AutomlConfig)
    (hnd : ((objectivesOf cfg).map Objective.name).Nodup) :
    keyUnion [cfg.objective.name] (cfg.additional_objectives.map Objective.name)
      = (objectivesOf cfg).map Objective.name := by
  have hshape : (objectivesOf cfg).map Objective.name
      = cfg.objective.name :: cfg.additional_objectives.map Objective.name := rfl
  rw [hshape] at hnd
  obtain ⟨hnotmem, hnd2⟩ := List.nodup_cons.mp hnd
  rw [hshape, keyUnion_fresh _ _ hnd2 ?_]
  · rfl
  · intro k hk hmem
    rw [List.mem_singleton] at hmem
    subst hmem
    exact hnotmem hk

theorem keyUnion_primary_objs (cfg : AutomlConfig)
    (hnd : ((objectivesOf cfg).map Objective.name).Nodup) :
    keyUnion [cfg.objective.name] ((objectivesOf cfg).map Objective.name)
      = (objectivesOf cfg).map Objective.name := by
  have hshape : (objectivesOf cfg).map Objective.name
      = cfg.objective.name :: cfg.additional_objectives.map Objective.name := rfl
  rw [hshape, keyUnion]
  rw [if_pos (by simp)]
  rw [← hshape]
  exact keyUnion_primary_addl cfg hnd

theorem counts_not_mem_objNames (cfg : AutomlConfig)
    (hn : ∀ o ∈ objectivesOf cfg, o.name ≠ "# Training" ∧ o.name ≠ "# Validation") :
    "# Training" ∉ (objectivesOf cfg).map Objective.name ∧
    "# Validation" ∉ (objectivesOf cfg).map Objective.name := by
  constructor
  · intro hmem
    obtain ⟨o, ho, hname⟩ := List.mem_map.mp hmem
    exact (hn o ho).1 hname
  · intro hmem
    obtain ⟨o, ho, hname⟩ := List.mem_map.mp hmem
    exact (hn o ho).2 hname

/-! ## Claim theorems: per-fold error containment -/

/-- Claim C3: a fold whose training or scoring raises a non-`PipelineScoreError`
exception gets NaN recorded for the primary objective and for every additional
objective in its evaluation entry, the fold still produces exactly one
training/scoring pass, and the configured error callback is invoked exactly
once for that fold with the fold's number. -/
theorem failed_fold_all_nan_and_callback_once (cfg : AutomlConfig) (encY : List ℤ)
    (i : Nat) (train valid : List Nat) (th : Option ℚ)
    (hcb : cfg.error_callback = true)
    (htr : allInRange train encY.length = true)
    (hva : allInRange valid encY.length = true)
    (hgate : isBinaryOrMulticlass cfg.problem_type = false ∨
      (setdiff1d encY (ilocSelect encY train) = [] ∧
       setdiff1d encY (ilocSelect encY valid) = []))
    (hn : ∀ o ∈ objectivesOf cfg, o.name ≠ "# Training" ∧ o.name ≠ "# Validation") :
    ∃ entry evs,
      processFold cfg encY i ⟨train, valid, FoldOutcome.otherError th⟩ = Except.ok (entry, evs) ∧
      alookup entry.all_objective_scores cfg.objective.name
        = some (EntryVal.score ScoreVal.nan) ∧
      (∀ o ∈ cfg.additional_objectives,
        alookup entry.all_objective_scores o.name = some (EntryVal.score ScoreVal.nan)) ∧
      callbackList evs = [i] ∧
      passList evs = [(ilocSelect encY train, ilocSelect encY valid)] := by
  rw [processFold_gate_ok cfg encY i ⟨train, valid, FoldOutcome.otherError th⟩ htr hva hgate]
  simp only [mkFoldEntry, trainAndScore, hcb, if_true]
  refine ⟨_, _, rfl, ?_, ?_, rfl, rfl⟩
  · exact alookup_entry_nan cfg _ _ cfg.objective.name
      (hn cfg.objective (List.mem_cons_self _ _)).1
      (hn cfg.objective (List.mem_cons_self _ _)).2 (Or.inl rfl)
  · intro o ho
    exact alookup_entry_nan cfg _ _ o.name
      (hn o (List.mem_cons_of_mem _ ho)).1
      (hn o (List.mem_cons_of_mem _ ho)).2
      (Or.inr (List.mem_map.mpr ⟨o, ho, rfl⟩))

/-- Witness for `failed_fold_all_nan_and_callback_once` at a concrete failing
fold of a regression evaluation. -/
theorem failed_fold_all_nan_and_callback_once_witness :
    ∃ entry evs,
      processFold exCfgReg [0, 1] 7 ⟨[0], [1], FoldOutcome.otherError none⟩
        = Except.ok (entry, evs) ∧
      alookup entry.all_objective_scores exCfgReg.objective.name
        = some (EntryVal.score ScoreVal.nan) ∧
      (∀ o ∈ exCfgReg.additional_objectives,
        alookup entry.all_objective_scores o.name = some (EntryVal.score ScoreVal.nan)) ∧
      callbackList evs = [7] ∧
      passList evs = [(ilocSelect [0, 1] [0], ilocSelect [0, 1] [1])] :=
  failed_fold_all_nan_and_callback_once exCfgReg [0, 1] 7 [0] [1] none rfl (by decide)
    (by decide) (Or.inl (by decide)) (by decide)

/-- Claim C4: a fold whose scoring raises a `PipelineScoreError` keeps the
real score of every objective that scored successfully and records NaN
exactly for the objectives that failed. -/
theorem partial_scoring_keeps_successful_scores (cfg : AutomlConfig) (encY : List ℤ)
    (i : Nat) (train valid : List Nat) (e : PipelineScoreExn) (th : Option ℚ)
    (htr : allInRange train encY.length = true)
    (hva : allInRange valid encY.length = true)
    (hgate : isBinaryOrMulticlass cfg.problem_type = false ∨
      (setdiff1d encY (ilocSelect encY train) = [] ∧
       setdiff1d encY (ilocSelect encY valid) = []))
    (hcov : ∀ o ∈ objectivesOf cfg, (mergedLookup e o.name).isSome = true)
    (hn : ∀ o ∈ objectivesOf cfg, o.name ≠ "# Training" ∧ o.name ≠ "# Validation") :
    ∃ entry evs,
      processFold cfg encY i ⟨train, valid, FoldOutcome.scoreError e th⟩ = Except.ok (entry, evs) ∧
      ∀ o ∈ objectivesOf cfg,
        (∀ v, alookup e.scored_successfully o.name = some v →
          alookup entry.all_objective_scores o.name = some (EntryVal.score v)) ∧
        (alookup e.scored_successfully o.name = none → e.exceptions.contains o.name = true →
          alookup entry.all_objective_scores o.name = some (EntryVal.score ScoreVal.nan)) := by
  rw [processFold_gate_ok cfg encY i ⟨train, valid, FoldOutcome.scoreError e th⟩ htr hva hgate]
  obtain ⟨L, hL⟩ := buildPartialScores_isOk e (objectivesOf cfg) hcov
  simp only [mkFoldEntry, trainAndScore, hL]
  refine ⟨_, _, rfl, ?_⟩
  have hval : ∀ o ∈ objectivesOf cfg, ∀ w, mergedLookup e o.name = some w →
      alookup (buildOrderedScores cfg ((alookup L cfg.objective.name).getD ScoreVal.nan) L
        (ilocSelect encY train).length (ilocSelect encY valid).length) o.name
        = some (EntryVal.score w) := by
    intro o ho w hw
    rw [alookup_buildOrderedScores _ _ _ _ _ _ (hn o ho).1 (hn o ho).2]
    have hkmem : o.name ∈ L.map Prod.fst := by
      rw [buildPartialScores_keys e _ L hL]
      exact List.mem_map.mpr ⟨o, ho, rfl⟩
    have hsome : (alookup L.reverse o.name).isSome = true := by
      rw [alookup_isSome_iff, List.map_reverse, List.mem_reverse]
      exact hkmem
    cases hrev : alookup L.reverse o.name with
    | none => rw [hrev] at hsome; simp at hsome
    | some v =>
      have hmem := alookup_mem hrev
      rw [List.mem_reverse] at hmem
      have hmv := buildPartialScores_vals e _ L hL (o.name, v) hmem
      rw [hw] at hmv
      have hvw : w = v := by
        simpa using hmv
      subst hvw
      rfl
  intro o ho
  constructor
  · intro v hsv
    exact hval o ho v (by simp [mergedLookup, hsv])
  · intro hnone hexc
    have hm : o.name ∈ e.exceptions := by simpa using hexc
    exact hval o ho ScoreVal.nan (by simp [mergedLookup, hnone, hm])

/-- Witness for `partial_scoring_keeps_successful_scores`: objective "A"
failed and becomes NaN, objective "B" scored 8 and keeps it. -/
theorem partial_scoring_keeps_successful_scores_witness :
    ∃ entry evs,
      processFold exCfgAB [0, 1] 0 ⟨[0], [1], FoldOutcome.scoreError exPSE none⟩
        = Except.ok (entry, evs) ∧
      ∀ o ∈ objectivesOf exCfgAB,
        (∀ v, alookup exPSE.scored_successfully o.name = some v →
          alookup entry.all_objective_scores o.name = some (EntryVal.score v)) ∧
        (alookup exPSE.scored_successfully o.name = none →
          exPSE.exceptions.contains o.name = true →
          alookup entry.all_objective_scores o.name = some (EntryVal.score ScoreVal.nan)) :=
  partial_scoring_keeps_successful_scores exCfgAB [0, 1] 0 [0] [1] exPSE none
    (by decide) (by decide) (Or.inl (by decide)) (by decide) (by decide)

/-- Claim C8: every fold's evaluation entry lists its keys in the order
primary objective, additional objectives, `"# Training"`, `"# Validation"`
(whatever the fold's outcome was), and its `binary_classification_threshold`
equals the returned pipeline's threshold exactly when the problem is binary
classification and that pipeline has a threshold, and is null in every other
case — in particular always null for non-binary problems. -/
theorem entry_key_order_and_threshold (cfg : AutomlConfig) (encY : List ℤ) (i : Nat)
    (fs : FoldSpec)
    (htr : allInRange fs.train encY.length = true)
    (hva : allInRange fs.valid encY.length = true)
    (hgate : isBinaryOrMulticlass cfg.problem_type = false ∨
      (setdiff1d encY (ilocSelect encY fs.train) = [] ∧
       setdiff1d encY (ilocSelect encY fs.valid) = []))
    (hsucc : ∀ scores th, fs.outcome = FoldOutcome.success scores th →
      scores.map Prod.fst = (objectivesOf cfg).map Objective.name)
    (hcov : ∀ e th, fs.outcome = FoldOutcome.scoreError e th →
      ∀ o ∈ objectivesOf cfg, (mergedLookup e o.name).isSome = true)
    (hnd : ((objectivesOf cfg).map Objective.name).Nodup)
    (hn : ∀ o ∈ objectivesOf cfg, o.name ≠ "# Training" ∧ o.name ≠ "# Validation") :
    ∃ entry evs, processFold cfg encY i fs = Except.ok (entry, evs) ∧
      entry.all_objective_scores.map Prod.fst
        = (objectivesOf cfg).map Objective.name ++ ["# Training", "# Validation"] ∧
      (is_binary cfg.problem_type = true → (outcomeThreshold fs.outcome).isSome = true →
        entry.binary_classification_threshold = outcomeThreshold fs.outcome) ∧
      (is_binary cfg.problem_type = false → entry.binary_classification_threshold = none) ∧
      (outcomeThreshold fs.outcome = none → entry.binary_classification_threshold = none) := by
  rw [processFold_gate_ok cfg encY i fs htr hva hgate]
  have hcounts := counts_not_mem_objNames cfg hn
  cases hout : fs.outcome with
  | success scores th =>
    have hkeys := hsucc scores th hout
    have hmem : cfg.objective.name ∈ scores.map Prod.fst := by
      rw [hkeys]
      exact List.mem_map.mpr ⟨cfg.objective, List.mem_cons_self _ _, rfl⟩
    have hsome : (alookup scores cfg.objective.name).isSome = true :=
      (alookup_isSome_iff _ _).mpr hmem
    cases hlk : alookup scores cfg.objective.name with
    | none => rw [hlk] at hsome; simp at hsome
    | some s =>
      simp only [mkFoldEntry, trainAndScore, hlk]
      refine ⟨_, _, rfl, ?_, ?_, ?_, ?_⟩
      · apply keys_buildOrderedScores cfg s scores _ _ ?_ hcounts.1 hcounts.2
        rw [hkeys]
        exact keyUnion_primary_objs cfg hnd
      · intro hb hth
        simp only [outcomeThreshold] at hth ⊢
        simp [hb, hth]
      · intro hb
        simp [hb]
      · intro hth
        simp only [outcomeThreshold] at hth
        simp [hth]
  | scoreError e th =>
    obtain ⟨L, hL⟩ := buildPartialScores_isOk e _ (hcov e th hout)
    simp only [mkFoldEntry, trainAndScore, hL]
    refine ⟨_, _, rfl, ?_, ?_, ?_, ?_⟩
    · apply keys_buildOrderedScores cfg _ L _ _ ?_ hcounts.1 hcounts.2
      rw [buildPartialScores_keys e _ L hL]
      exact keyUnion_primary_objs cfg hnd
    · intro hb hth
      simp only [outcomeThreshold] at hth ⊢
      simp [hb, hth]
    · intro hb
      simp [hb]
    · intro hth
      simp only [outcomeThreshold] at hth
      simp [hth]
  | otherError th =>
    simp only [mkFoldEntry, trainAndScore]
    refine ⟨_, _, rfl, ?_, ?_, ?_, ?_⟩
    · apply keys_buildOrderedScores cfg _ _ _ _ ?_ hcounts.1 hcounts.2
      rw [nanFill_keys]
      exact keyUnion_primary_addl cfg hnd
    · intro hb hth
      simp only [outcomeThreshold] at hth ⊢
      simp [hb, hth]
    · intro hb
      simp [hb]
    · intro hth
      simp only [outcomeThreshold] at hth
      simp [hth]

/-- Witness for `entry_key_order_and_threshold`: a successful binary fold
with a tuned threshold. -/
theorem entry_key_order_and_threshold_witness :
    ∃ entry evs, processFold exCfgABbin [0, 1] 0 exFoldC8 = Except.ok (entry, evs) ∧
      entry.all_objective_scores.map Prod.fst
        = (objectivesOf exCfgABbin).map Objective.name ++ ["# Training", "# Validation"] ∧
      (is_binary exCfgABbin.problem_type = true → (outcomeThreshold exFoldC8.outcome).isSome = true →
        entry.binary_classification_threshold = outcomeThreshold exFoldC8.outcome) ∧
      (is_binary exCfgABbin.problem_type = false →
        entry.binary_classification_threshold = none) ∧
      (outcomeThreshold exFoldC8.outcome = none →
        entry.binary_classification_threshold = none) :=
  entry_key_order_and_threshold exCfgABbin [0, 1] 0 exFoldC8 (by decide) (by decide)
    (Or.inr (by decide))
    (by intro scores th h
        cases h
        decide)
    (by intro e th h; exact FoldOutcome.noConfusion h)
    (by decide) (by decide)

/-! ## Supporting lemmas: the fold loop -/

theorem runFolds_ok (cfg : AutomlConfig) (encY : List ℤ) :
    ∀ (folds : List FoldSpec) (i : Nat),
    (∀ j fs, folds[j]? = some fs → exceptIsOk (processFold cfg encY (i + j) fs) = true) →
    ∃ entries events, runFolds cfg encY i folds = Except.ok (entries, events) ∧
      entries.length = folds.length ∧
      ∀ j fs, folds[j]? = some fs →
        ∃ entry evs, processFold cfg encY (i + j) fs = Except.ok (entry, evs) ∧
          entries[j]? = some entry := by
  intro folds
  induction folds with
  | nil =>
    intro i h
    refine ⟨[], [], rfl, rfl, ?_⟩
    intro j fs hj
    simp at hj
  | cons f0 rest ih =>
    intro i h
    have h0 : exceptIsOk (processFold cfg encY (i + 0) f0) = true := h 0 f0 (by simp)
    rw [Nat.add_zero] at h0
    obtain ⟨p0, hp0⟩ : ∃ p, processFold cfg encY i f0 = Except.ok p := by
      cases hp : processFold cfg encY i f0 with
      | error e => rw [hp] at h0; simp [exceptIsOk] at h0
      | ok p => exact ⟨p, rfl⟩
    obtain ⟨e0, ev0⟩ := p0
    obtain ⟨entries, events, hrun, hlen, hnth⟩ := ih (i + 1) (fun j fs hj => by
      have hh := h (j + 1) fs (by simpa using hj)
      rwa [show i + (j + 1) = i + 1 + j by omega] at hh)
    refine ⟨e0 :: entries, ev0 ++ events, ?_, by simp [hlen], ?_⟩
    · simp only [runFolds, hp0, hrun]
    · intro j fs hj
      cases j with
      | zero =>
        simp only [List.getElem?_cons_zero, Option.some.injEq] at hj
        subst hj
        exact ⟨e0, ev0, by rw [Nat.add_zero]; exact hp0, by simp⟩
      | succ j =>
        have hj2 : rest[j]? = some fs := by simpa using hj
        obtain ⟨entry, evs, hpf, hget⟩ := hnth j fs hj2
        refine ⟨entry, evs, ?_, by simpa using hget⟩
        rwa [show i + (j + 1) = i + 1 + j by omega]

theorem runFolds_error_at (cfg : AutomlConfig) (encY : List ℤ) :
    ∀ (folds : List FoldSpec) (i j : Nat) (fs : FoldSpec) (err : EvalError),
    folds[j]? = some fs →
    (∀ j2 fs2, j2 < j → folds[j2]? = some fs2 →
      exceptIsOk (processFold cfg encY (i + j2) fs2) = true) →
    processFold cfg encY (i + j) fs = Except.error err →
    runFolds cfg encY i folds = Except.error err := by
  intro folds
  induction folds with
  | nil =>
    intro i j fs err hj
    simp at hj
  | cons f0 rest ih =>
    intro i j fs err hj hearlier herr
    cases j with
    | zero =>
      simp only [List.getElem?_cons_zero, Option.some.injEq] at hj
      subst hj
      rw [Nat.add_zero] at herr
      simp only [runFolds, herr]
    | succ j =>
      have h0 : exceptIsOk (processFold cfg encY (i + 0) f0) = true :=
        hearlier 0 f0 (Nat.succ_pos j) (by simp)
      rw [Nat.add_zero] at h0
      obtain ⟨p0, hp0⟩ : ∃ p, processFold cfg encY i f0 = Except.ok p := by
        cases hp : processFold cfg encY i f0 with
        | error e => rw [hp] at h0; simp [exceptIsOk] at h0
        | ok p => exact ⟨p, rfl⟩
      obtain ⟨e0, ev0⟩ := p0
      have hrec := ih (i + 1) j fs err (by simpa using hj)
        (fun j2 fs2 hlt hj2 => by
          have hh := hearlier (j2 + 1) fs2 (Nat.succ_lt_succ hlt) (by simpa using hj2)
          rwa [show i + (j2 + 1) = i + 1 + j2 by omega] at hh)
        (by rwa [show i + (j + 1) = i + 1 + j by omega] at herr)
      simp only [runFolds, hp0, hrec]

/-! ## Claim theorems: the cross-validation loop -/

/-- Claim C1: when every per-fold failure is non-fatal (each fold's body
returns instead of raising — in particular generic training/scoring failures,
which are contained per fold), the evaluation returns and its `cv_data` has
exactly one entry per splitter fold, in the splitter's emission order; no
fold's failure ends the loop early. -/
theorem cv_data_one_entry_per_fold (cfg : AutomlConfig) (y : List ℤ)
    (folds : List FoldSpec) (ho : FoldOutcome)
    (h : ∀ j fs, folds[j]? = some fs →
      exceptIsOk (processFold cfg (encodedTarget cfg y) j fs) = true) :
    ∃ s ev, trainAndScorePipeline cfg y folds false none ho = Except.ok (s, ev) ∧
      s.cv_data.length = folds.length ∧
      ∀ j fs, folds[j]? = some fs →
        ∃ entry evs, processFold cfg (encodedTarget cfg y) j fs = Except.ok (entry, evs) ∧
          s.cv_data[j]? = some entry := by
  obtain ⟨entries, events, hrun, hlen, hnth⟩ :=
    runFolds_ok cfg (encodedTarget cfg y) folds 0 (fun j fs hj => by
      rw [Nat.zero_add]
      exact h j fs hj)
  refine ⟨⟨entries, entries.map (fun fold => fold.mean_cv_score),
      pandasMean (entries.map (fun fold => fold.mean_cv_score)), none, none⟩, events, ?_, hlen, ?_⟩
  · simp only [trainAndScorePipeline, hrun, Bool.false_and, Bool.false_eq_true, if_false]
  · intro j fs hj
    obtain ⟨entry, evs, hpf, hget⟩ := hnth j fs hj
    rw [Nat.zero_add] at hpf
    exact ⟨entry, evs, hpf, hget⟩

/-- Witness for `cv_data_one_entry_per_fold`: two folds, the second of which
fails with a generic exception, still yield two entries. -/
theorem cv_data_one_entry_per_fold_witness :
    ∃ s ev, trainAndScorePipeline exCfgReg [0, 1, 2, 3] exFoldsMixed false none
        (FoldOutcome.otherError none) = Except.ok (s, ev) ∧
      s.cv_data.length = exFoldsMixed.length ∧
      ∀ j fs, exFoldsMixed[j]? = some fs →
        ∃ entry evs,
          processFold exCfgReg (encodedTarget exCfgReg [0, 1, 2, 3]) j fs
            = Except.ok (entry, evs) ∧
          s.cv_data[j]? = some entry :=
  cv_data_one_entry_per_fold exCfgReg [0, 1, 2, 3] exFoldsMixed (FoldOutcome.otherError none)
    (by
      intro j fs hj
      match j with
      | 0 =>
        simp only [exFoldsMixed, List.getElem?_cons_zero, Option.some.injEq] at hj
        subst hj
        decide
      | 1 =>
        simp only [exFoldsMixed, List.getElem?_cons_succ, List.getElem?_cons_zero,
          Option.some.injEq] at hj
        subst hj
        decide
      | j + 2 =>
        simp [exFoldsMixed] at hj)

/-- Claim C6: for a binary or multiclass evaluation, the first fold whose
training or validation slice misses target values present in the full
(encoded) target makes the whole evaluation raise, before that fold is
trained — the conclusion holds for every outcome the fold's oracle could
have, so training never influences it — with the error carrying the missing
values of each slice; the per-fold containment does not catch it. -/
theorem missing_target_values_abort (cfg : AutomlConfig) (y : List ℤ)
    (folds : List FoldSpec) (xh : Bool) (yh : Option (List ℤ)) (ho : FoldOutcome)
    (j : Nat) (fs : FoldSpec)
    (hpt : isBinaryOrMulticlass cfg.problem_type = true)
    (hj : folds[j]? = some fs)
    (hearlier : ∀ j2 fs2, j2 < j → folds[j2]? = some fs2 →
      exceptIsOk (processFold cfg (encodedTarget cfg y) j2 fs2) = true)
    (htr : allInRange fs.train (encodedTarget cfg y).length = true)
    (hva : allInRange fs.valid (encodedTarget cfg y).length = true)
    (hdiff : ¬(setdiff1d (encodedTarget cfg y)
        (ilocSelect (encodedTarget cfg y) fs.train) = [] ∧
      setdiff1d (encodedTarget cfg y) (ilocSelect (encodedTarget cfg y) fs.valid) = [])) :
    trainAndScorePipeline cfg y folds xh yh ho =
      Except.error (EvalError.missingTargetValues
        (setdiff1d (encodedTarget cfg y) (ilocSelect (encodedTarget cfg y) fs.train))
        (setdiff1d (encodedTarget cfg y) (ilocSelect (encodedTarget cfg y) fs.valid))) := by
  have hpf : processFold cfg (encodedTarget cfg y) j fs =
      Except.error (EvalError.missingTargetValues
        (setdiff1d (encodedTarget cfg y) (ilocSelect (encodedTarget cfg y) fs.train))
        (setdiff1d (encodedTarget cfg y) (ilocSelect (encodedTarget cfg y) fs.valid))) := by
    simp only [processFold, htr, hva, Bool.and_self, if_true, hpt]
    rw [if_neg hdiff]
  have hrun := runFolds_error_at cfg (encodedTarget cfg y) folds 0 j fs _ hj
    (fun j2 fs2 hlt hj2 => by
      rw [Nat.zero_add]
      exact hearlier j2 fs2 hlt hj2)
    (by rw [Nat.zero_add]; exact hpf)
  simp only [trainAndScorePipeline, hrun]

/-- Witness for `missing_target_values_abort`: the target `[0, 1, 2, 0]`
split so the training slice misses class 2. -/
theorem missing_target_values_abort_witness :
    trainAndScorePipeline exCfgABbin [0, 1, 2, 0] exFoldsC6 false none
        (FoldOutcome.otherError none) =
      Except.error (EvalError.missingTargetValues
        (setdiff1d (encodedTarget exCfgABbin [0, 1, 2, 0])
          (ilocSelect (encodedTarget exCfgABbin [0, 1, 2, 0]) [0, 1, 3]))
        (setdiff1d (encodedTarget exCfgABbin [0, 1, 2, 0])
          (ilocSelect (encodedTarget exCfgABbin [0, 1, 2, 0]) [0, 1, 2, 3]))) :=
  missing_target_values_abort exCfgABbin [0, 1, 2, 0] exFoldsC6 false none
    (FoldOutcome.otherError none) 0 ⟨[0, 1, 3], [0, 1, 2, 3], FoldOutcome.otherError none⟩
    (by decide) (by decide)
    (by intro j2 fs2 hlt hj2; exact absurd hlt (by omega))
    (by decide) (by decide) (by decide)

/-! ## Supporting lemmas: counting training/scoring passes -/

theorem passList_append (a b : List EvalEvent) :
    passList (a ++ b) = passList a ++ passList b := by
  induction a with
  | nil => rfl
  | cons x r ih =>
    cases x with
    | trainScorePass p q => simp [passList, ih]
    | errorCallback n => simp [passList, ih]

theorem passList_map_errorCallback (l : List Nat) :
    passList (l.map EvalEvent.errorCallback) = [] := by
  induction l with
  | nil => rfl
  | cons n r ih => simp [passList, ih]

theorem mkFoldEntry_ok_passList {cfg : AutomlConfig} {i : Nat} {outcome : FoldOutcome}
    {ytr yv : List ℤ} {e : EvaluationEntry} {evs : List EvalEvent}
    (h : mkFoldEntry cfg i outcome ytr yv = Except.ok (e, evs)) :
    passList evs = [(ytr, yv)] := by
  simp only [mkFoldEntry] at h
  cases hts : trainAndScore cfg (some i) i outcome with
  | error err => rw [hts] at h; exact absurd h (by simp)
  | ok r =>
    rw [hts] at h
    simp only [Except.ok.injEq, Prod.mk.injEq] at h
    rw [← h.2]
    simp [passList, passList_map_errorCallback]

theorem processFold_ok_passList {cfg : AutomlConfig} {encY : List ℤ} {i : Nat}
    {fs : FoldSpec} {e : EvaluationEntry} {evs : List EvalEvent}
    (h : processFold cfg encY i fs = Except.ok (e, evs)) :
    passList evs = [(ilocSelect encY fs.train, ilocSelect encY fs.valid)] := by
  by_cases hr : (allInRange fs.train encY.length && allInRange fs.valid encY.length) = true
  · simp only [processFold, hr, if_true] at h
    by_cases hb : isBinaryOrMulticlass cfg.problem_type = true
    · simp only [hb, if_true] at h
      by_cases hd : (setdiff1d encY (ilocSelect encY fs.train) = [] ∧
          setdiff1d encY (ilocSelect encY fs.valid) = [])
      · rw [if_pos hd] at h
        exact mkFoldEntry_ok_passList h
      · rw [if_neg hd] at h
        exact absurd h (by simp)
    · simp only [hb] at h
      rw [if_neg (by simp [hb])] at h
      exact mkFoldEntry_ok_passList h
  · simp only [processFold] at h
    rw [if_neg hr] at h
    exact absurd h (by simp)

theorem runFolds_ok_passCount (cfg : AutomlConfig) (encY : List ℤ) :
    ∀ (folds : List FoldSpec) (i : Nat) (entries : List EvaluationEntry)
      (events : List EvalEvent),
    runFolds cfg encY i folds = Except.ok (entries, events) →
    (passList events).length = folds.length := by
  intro folds
  induction folds with
  | nil =>
    intro i entries events h
    simp only [runFolds, Except.ok.injEq, Prod.mk.injEq] at h
    rw [← h.2]
    rfl
  | cons f0 rest ih =>
    intro i entries events h
    simp only [runFolds] at h
    cases hp : processFold cfg encY i f0 with
    | error err => rw [hp] at h; exact absurd h (by simp)
    | ok p0 =>
      obtain ⟨e0, ev0⟩ := p0
      rw [hp] at h
      cases hrest : runFolds cfg encY (i + 1) rest with
      | error err => rw [hrest] at h; exact absurd h (by simp)
      | ok pr =>
        obtain ⟨es, evs2⟩ := pr
        rw [hrest] at h
        simp only [Except.ok.injEq, Prod.mk.injEq] at h
        rw [← h.2, passList_append, List.length_append,
          processFold_ok_passList hp, ih (i + 1) es evs2 hrest]
        simp [Nat.add_comm]

/-- Claim C9: when both holdout arguments are supplied, exactly one extra
training/scoring pass runs after the cross-validation passes, its training
slice is the entire (encoded) training target and its scoring slice the
(encoded) holdout target, and `holdout_score`/`holdout_scores` come from that
pass; when either holdout argument is missing, there is no extra pass and
both fields are null. -/
theorem holdout_pass_exactly_when_supplied (cfg : AutomlConfig) (y : List ℤ)
    (folds : List FoldSpec) (xh : Bool) (yh : Option (List ℤ)) (ho : FoldOutcome)
    (s : EvalScores) (ev : List EvalEvent)
    (h : trainAndScorePipeline cfg y folds xh yh ho = Except.ok (s, ev)) :
    ((xh && yh.isSome) = true →
      ∃ r, trainAndScore cfg none (folds.length - 1) ho = Except.ok r ∧
        s.holdout_score = some r.score ∧ s.holdout_scores = some r.scores ∧
        ∃ cvPasses, passList ev = cvPasses ++
            [(encodedTarget cfg y, (encodedHoldout cfg (xh && yh.isSome) yh).getD [])] ∧
          cvPasses.length = folds.length) ∧
    ((xh && yh.isSome) = false →
      s.holdout_score = none ∧ s.holdout_scores = none ∧
      (passList ev).length = folds.length) := by
  simp only [trainAndScorePipeline] at h
  cases hr : runFolds cfg (encodedTarget cfg y) 0 folds with
  | error e => rw [hr] at h; exact absurd h (by simp)
  | ok pr =>
    obtain ⟨cv_data, events⟩ := pr
    rw [hr] at h
    simp only at h
    constructor
    · intro hu
      rw [hu] at h
      simp only [if_true] at h
      cases folds with
      | nil => exact absurd h (by simp)
      | cons f0 rest =>
        cases hts : trainAndScore cfg none ((f0 :: rest).length - 1) ho with
        | error err => rw [hts] at h; exact absurd h (by simp)
        | ok r =>
          rw [hts] at h
          simp only [Except.ok.injEq, Prod.mk.injEq] at h
          refine ⟨r, rfl, ?_, ?_, ⟨passList events, ?_, ?_⟩⟩
          · rw [← h.1]
          · rw [← h.1]
          · rw [← h.2, passList_append, hu]
            simp [passList, passList_map_errorCallback]
          · exact runFolds_ok_passCount cfg (encodedTarget cfg y) (f0 :: rest) 0
              cv_data events hr
    · intro hu
      rw [hu] at h
      simp only [Bool.false_eq_true, if_false] at h
      simp only [Except.ok.injEq, Prod.mk.injEq] at h
      refine ⟨?_, ?_, ?_⟩
      · rw [← h.1]
      · rw [← h.1]
      · rw [← h.2]
        exact runFolds_ok_passCount cfg (encodedTarget cfg y) folds 0 cv_data events hr

/-- Witness for `holdout_pass_exactly_when_supplied`: a one-fold run with a
holdout set. -/
theorem holdout_pass_exactly_when_supplied_witness :
    ((true && (some [(5 : ℤ)]).isSome) = true →
      ∃ r, trainAndScore exCfgReg none (exFoldsH.length - 1) exHoldoutOutcome = Except.ok r ∧
        exScoresH.holdout_score = some r.score ∧ exScoresH.holdout_scores = some r.scores ∧
        ∃ cvPasses, passList exEvH = cvPasses ++
            [(encodedTarget exCfgReg [0, 1],
              (encodedHoldout exCfgReg (true && (some [(5 : ℤ)]).isSome) (some [5])).getD [])] ∧
          cvPasses.length = exFoldsH.length) ∧
    ((true && (some [(5 : ℤ)]).isSome) = false →
      exScoresH.holdout_score = none ∧ exScoresH.holdout_scores = none ∧
      (passList exEvH).length = exFoldsH.length) :=
  holdout_pass_exactly_when_supplied exCfgReg [0, 1] exFoldsH true (some [5])
    exHoldoutOutcome exScoresH exEvH rfl

/-- Claim C5 evaluated on a failing input: with original classification labels
`[10, 20, 10]`, the fold's `_train_and_score` call receives the re-encoded
target slices (`[0, 1]` and `[0, 1, 0]`), not slices of the original labels
(`ilocSelect [10, 20, 10] [0, 1] = [10, 20]`), because the source reassigns
`full_y_train` to the encoded series before slicing; and the missing-class
error names the encoded value `1`, not the original label `20`. This
contradicts the claim (and the source's own comment that the encoding is only
used to compute split indices). -/
theorem encoded_target_reaches_training_and_error_messages :
    (∃ s ev, trainAndScorePipeline exCfgBin [10, 20, 10]
        [⟨[0, 1], [0, 1, 2], FoldOutcome.success [("Log Loss", ScoreVal.val 1)] none⟩]
        false none (FoldOutcome.otherError none) = Except.ok (s, ev) ∧
      passList ev = [([0, 1], [0, 1, 0])]) ∧
    ilocSelect [10, 20, 10] [0, 1] = [10, 20] ∧
    (([0, 1] : List ℤ) ≠ [10, 20]) ∧
    trainAndScorePipeline exCfgBin [10, 20, 10] [⟨[0], [0, 1], FoldOutcome.otherError none⟩]
        false none (FoldOutcome.otherError none)
      = Except.error (EvalError.missingTargetValues [1] []) := by
  refine ⟨⟨_, _, rfl, by decide⟩, by decide, by decide, rfl⟩
